import Mathlib

/-!
Shallow embedding of `src/graiax/mockery/model/message.py`.

The repository declares pydantic (v1) models: a base class `Element`
with a single string field `type` (default "Unknown"), concrete element
subclasses (Plain, At, AtAll, Face, MarketFace, Xml, Json, App, Poke,
Dice, File, MiraiCode, Image, ...) and a custom-root model
`MessageChain` whose root is `List[Element]`.  Decoding and encoding are
the pydantic v1 behaviours of these declarations:

* `Model.parse_obj` / `Model.validate`: fields are looked up by alias
  (the alias equals the field name except `Json.Json`, aliased "json"),
  in declaration order; a missing required field is a MissingError, a
  missing optional field takes its default without validation; `None`
  is accepted exactly when the default is `None`; extra keys are
  ignored (`Extra.ignore` is the default config); errors of all fields
  are aggregated into one ValidationError.
* scalar coercions of pydantic v1: `str` fields keep strings and
  stringify ints and bools (Python bools are ints, `str(True)` is
  "True"); `int` fields keep non-bool ints, turn bools into 0/1 and
  parse integer literals out of strings, anything else is an
  IntegerError; enum fields accept exactly the member values and fail
  with an EnumMemberError listing the permitted values.
* `MessageChain` validates its root as `List[Element]`: every item is
  validated against the *base* class `Element`, which keeps only the
  `type` key (subclass fields are extra keys and are dropped); a
  non-list root is a ListError; item errors are aggregated in order.
  A nested chain field (Quote.origin) receives the raw value through
  `_enforce_dict_if_root`, i.e. a JSON array is taken as the root.
* `.dict()` exports by field name (so `Json.Json` is written under
  "Json" unless `by_alias=True`), includes `None` values, and unwraps
  the `__root__` key of nested custom-root models; on the wire a chain
  is the plain array.  Enum members serialize as their string value.

Variants whose contract needs `datetime` fields (Source, ForwardNode,
Forward) and the remaining multimedia near-duplicates (FlashImage,
Voice, MultimediaElement, MusicShare, At is kept, Face is kept) are not
needed by the claims below; the embedded set covers every behaviour the
claims mention: required/optional fields, int/str coercion, the enum
field, the aliased field, the base element, and the recursive chain.
-/

namespace Mockery

/-- A JSON-like wire value. -/
inductive JValue where
  | null : JValue
  | bool : Bool → JValue
  | int : Int → JValue
  | str : String → JValue
  | arr : List JValue → JValue
  | obj : List (String × JValue) → JValue

mutual

/-- Decidable equality of wire values. -/
def decEqV : (a b : JValue) → Decidable (a = b)
  | .null, .null => .isTrue rfl
  | .bool a, .bool b =>
    match decEq a b with
    | .isTrue h => .isTrue (congrArg JValue.bool h)
    | .isFalse h => .isFalse (fun hh => h (JValue.bool.inj hh))
  | .int a, .int b =>
    match decEq a b with
    | .isTrue h => .isTrue (congrArg JValue.int h)
    | .isFalse h => .isFalse (fun hh => h (JValue.int.inj hh))
  | .str a, .str b =>
    match decEq a b with
    | .isTrue h => .isTrue (congrArg JValue.str h)
    | .isFalse h => .isFalse (fun hh => h (JValue.str.inj hh))
  | .arr xs, .arr ys =>
    match decEqL xs ys with
    | .isTrue h => .isTrue (congrArg JValue.arr h)
    | .isFalse h => .isFalse (fun hh => h (JValue.arr.inj hh))
  | .obj xs, .obj ys =>
    match decEqO xs ys with
    | .isTrue h => .isTrue (congrArg JValue.obj h)
    | .isFalse h => .isFalse (fun hh => h (JValue.obj.inj hh))
  | .null, .bool _ => .isFalse nofun
  | .null, .int _ => .isFalse nofun
  | .null, .str _ => .isFalse nofun
  | .null, .arr _ => .isFalse nofun
  | .null, .obj _ => .isFalse nofun
  | .bool _, .null => .isFalse nofun
  | .bool _, .int _ => .isFalse nofun
  | .bool _, .str _ => .isFalse nofun
  | .bool _, .arr _ => .isFalse nofun
  | .bool _, .obj _ => .isFalse nofun
  | .int _, .null => .isFalse nofun
  | .int _, .bool _ => .isFalse nofun
  | .int _, .str _ => .isFalse nofun
  | .int _, .arr _ => .isFalse nofun
  | .int _, .obj _ => .isFalse nofun
  | .str _, .null => .isFalse nofun
  | .str _, .bool _ => .isFalse nofun
  | .str _, .int _ => .isFalse nofun
  | .str _, .arr _ => .isFalse nofun
  | .str _, .obj _ => .isFalse nofun
  | .arr _, .null => .isFalse nofun
  | .arr _, .bool _ => .isFalse nofun
  | .arr _, .int _ => .isFalse nofun
  | .arr _, .str _ => .isFalse nofun
  | .arr _, .obj _ => .isFalse nofun
  | .obj _, .null => .isFalse nofun
  | .obj _, .bool _ => .isFalse nofun
  | .obj _, .int _ => .isFalse nofun
  | .obj _, .str _ => .isFalse nofun
  | .obj _, .arr _ => .isFalse nofun

/-- Decidable equality of wire value lists. -/
def decEqL : (a b : List JValue) → Decidable (a = b)
  | [], [] => .isTrue rfl
  | [], _ :: _ => .isFalse nofun
  | _ :: _, [] => .isFalse nofun
  | x :: xs, y :: ys =>
    match decEqV x y with
    | .isFalse h => .isFalse (fun hh => h (List.cons.inj hh).1)
    | .isTrue h1 =>
      match decEqL xs ys with
      | .isTrue h2 => .isTrue (by rw [h1, h2])
      | .isFalse h2 => .isFalse (fun hh => h2 (List.cons.inj hh).2)

/-- Decidable equality of wire object field lists. -/
def decEqO : (a b : List (String × JValue)) → Decidable (a = b)
  | [], [] => .isTrue rfl
  | [], _ :: _ => .isFalse nofun
  | _ :: _, [] => .isFalse nofun
  | (k1, v1) :: xs, (k2, v2) :: ys =>
    match decEq k1 k2 with
    | .isFalse h => .isFalse (fun hh => h (congrArg Prod.fst (List.cons.inj hh).1))
    | .isTrue hk =>
      match decEqV v1 v2 with
      | .isFalse h => .isFalse (fun hh => h (congrArg Prod.snd (List.cons.inj hh).1))
      | .isTrue hv =>
        match decEqO xs ys with
        | .isTrue ht => .isTrue (by rw [hk, hv, ht])
        | .isFalse h => .isFalse (fun hh => h (List.cons.inj hh).2)

end

instance : DecidableEq JValue := decEqV

/-- Key lookup in a wire object (first occurrence wins, as in a Python dict). -/
def getKey : List (String × JValue) → String → Option JValue
  | [], _ => none
  | (k, v) :: rest, key => if k = key then some v else getKey rest key

/-- The error kinds pydantic v1 raises for the fields of these models. -/
inductive ErrKind where
  | missing : ErrKind
  | noneNotAllowed : ErrKind
  | strType : ErrKind
  | intType : ErrKind
  | enumValue : List String → ErrKind
  | notADict : ErrKind
deriving DecidableEq, Repr

/-- Error of validating one payload against the base `Element`: field name and kind. -/
abbrev ElemErr := List (String × ErrKind)

/-- Error of decoding a chain root: not a list, or the aggregated item errors. -/
inductive ChainErr where
  | notAList : ChainErr
  | items : List (Nat × ElemErr) → ChainErr
deriving DecidableEq, Repr

/-- A field-level error inside a variant: a scalar error or a nested chain error. -/
inductive FErr where
  | kind : ErrKind → FErr
  | chain : ChainErr → FErr
deriving DecidableEq, Repr

/-- Error of validating one payload against a concrete variant. -/
abbrev VErr := List (String × FErr)

/-- Value of a nonempty run of decimal digits. -/
def digitsValAux : Nat → List Char → Option Nat
  | acc, [] => some acc
  | acc, c :: rest =>
    if c.isDigit then digitsValAux (acc * 10 + (c.toNat - 48)) rest else none

/-- Value of a nonempty all-digit character list, else `none`. -/
def digitsVal : List Char → Option Nat
  | [] => none
  | cs => digitsValAux 0 cs

/-- ASCII whitespace as stripped by Python int parsing. -/
def isPyWS (c : Char) : Bool :=
  c = ' ' || c = '\t' || c = '\n' || c = '\r' || c = '\x0b' || c = '\x0c'

/-- Strip leading and trailing whitespace from a character list. -/
def stripWS (cs : List Char) : List Char :=
  ((cs.dropWhile isPyWS).reverse.dropWhile isPyWS).reverse

/-- Python `int(s)` on a string: surrounding whitespace stripped, optional
sign, then decimal digits (digit-group underscores are not modelled; no
input below uses them). `none` models the ValueError. -/
def pyParseInt (s : String) : Option Int :=
  match stripWS s.data with
  | '-' :: rest => (digitsVal rest).map (fun n => -(n : Int))
  | '+' :: rest => (digitsVal rest).map (fun n => (n : Int))
  | cs => (digitsVal cs).map (fun n => (n : Int))

/-- The pydantic v1 `str_validator` on a non-None value: strings kept,
ints and bools stringified (Python `str(True)` is "True"), containers
rejected with StrError. -/
def strCoe : JValue → Except ErrKind String
  | .str s => .ok s
  | .bool b => .ok (if b then "True" else "False")
  | .int n => .ok (toString n)
  | _ => .error .strType

/-- The pydantic v1 `int_validator` on a non-None value: non-bool ints
kept, bools become 0/1, strings go through Python `int`, the rest is an
IntegerError. -/
def intCoe : JValue → Except ErrKind Int
  | .int n => .ok n
  | .bool b => .ok (if b then 1 else 0)
  | .str s =>
    match pyParseInt s with
    | some n => .ok n
    | none => .error .intType
  | _ => .error .intType

/-- A required str field: absent is MissingError, None a NoneIsNotAllowedError. -/
def reqStr : Option JValue → Except ErrKind String
  | none => .error .missing
  | some .null => .error .noneNotAllowed
  | some v => strCoe v

/-- An optional str field with default None: absent and None both give no value. -/
def optStr : Option JValue → Except ErrKind (Option String)
  | none => .ok none
  | some .null => .ok none
  | some v => (strCoe v).map some

/-- A required int field. -/
def reqInt : Option JValue → Except ErrKind Int
  | none => .error .missing
  | some .null => .error .noneNotAllowed
  | some v => intCoe v

/-- An optional int field with default None. -/
def optInt : Option JValue → Except ErrKind (Option Int)
  | none => .ok none
  | some .null => .ok none
  | some v => (intCoe v).map some

/-- The `PokeMethods` str-enum of message.py, 16 members. -/
inductive PokeMethods where
  | ChuoYiChuo : PokeMethods
  | BiXin : PokeMethods
  | DianZan : PokeMethods
  | XinSui : PokeMethods
  | LiuLiuLiu : PokeMethods
  | FangDaZhao : PokeMethods
  | BaoBeiQiu : PokeMethods
  | Rose : PokeMethods
  | ZhaoHuanShu : PokeMethods
  | RangNiPi : PokeMethods
  | JeiYin : PokeMethods
  | ShouLei : PokeMethods
  | GouYin : PokeMethods
  | ZhuaYiXia : PokeMethods
  | SuiPing : PokeMethods
  | QiaoMen : PokeMethods
deriving DecidableEq, Repr

/-- The string value of each `PokeMethods` member. -/
def PokeMethods.value : PokeMethods → String
  | .ChuoYiChuo => "ChuoYiChuo"
  | .BiXin => "BiXin"
  | .DianZan => "DianZan"
  | .XinSui => "XinSui"
  | .LiuLiuLiu => "LiuLiuLiu"
  | .FangDaZhao => "FangDaZhao"
  | .BaoBeiQiu => "BaoBeiQiu"
  | .Rose => "Rose"
  | .ZhaoHuanShu => "ZhaoHuanShu"
  | .RangNiPi => "RangNiPi"
  | .JeiYin => "JeiYin"
  | .ShouLei => "ShouLei"
  | .GouYin => "GouYin"
  | .ZhuaYiXia => "ZhuaYiXia"
  | .SuiPing => "SuiPing"
  | .QiaoMen => "QiaoMen"

/-- The members of `PokeMethods`, in declaration order. -/
def PokeMethods.members : List PokeMethods :=
  [.ChuoYiChuo, .BiXin, .DianZan, .XinSui, .LiuLiuLiu, .FangDaZhao,
   .BaoBeiQiu, .Rose, .ZhaoHuanShu, .RangNiPi, .JeiYin, .ShouLei,
   .GouYin, .ZhuaYiXia, .SuiPing, .QiaoMen]

/-- Lookup of a `PokeMethods` member by its string value, i.e. Python
`PokeMethods(v)` succeeding or raising ValueError. -/
def PokeMethods.ofValue (s : String) : Option PokeMethods :=
  PokeMethods.members.find? (fun m => m.value = s)

/-- The member values of `PokeMethods`, in declaration order (the
`enum_values` list pydantic puts into an EnumMemberError). -/
def PokeMethods.allValues : List String :=
  PokeMethods.members.map PokeMethods.value

/-- A required `PokeMethods` field: pydantic `enum_member_validator`. -/
def reqPoke : Option JValue → Except ErrKind PokeMethods
  | none => .error .missing
  | some .null => .error .noneNotAllowed
  | some (.str s) =>
    match PokeMethods.ofValue s with
    | some m => .ok m
    | none => .error (.enumValue PokeMethods.allValues)
  | some _ => .error (.enumValue PokeMethods.allValues)

/-- Base class `Element`: only the discriminator, `type: str = "Unknown"`. -/
structure Element where
  type : String
deriving DecidableEq, Repr

/-- Class `Plain`: `type: str = "Plain"` and required `text: str`. -/
structure Plain where
  type : String
  text : String
deriving DecidableEq, Repr

/-- Class `At`: required `target: int`, optional `display: Optional[str]`. -/
structure At where
  type : String
  target : Int
  display : Option String
deriving DecidableEq, Repr

/-- Class `AtAll`: marker element, only the discriminator. -/
structure AtAll where
  type : String
deriving DecidableEq, Repr

/-- Class `Face`: optional `faceId: Optional[int]`, optional `name: Optional[str]`. -/
structure Face where
  type : String
  faceId : Option Int
  name : Option String
deriving DecidableEq, Repr

/-- Class `MarketFace`: required `id: int` and `name: str`. -/
structure MarketFace where
  type : String
  id : Int
  name : String
deriving DecidableEq, Repr

/-- Class `Xml`: required `xml: str`. -/
structure Xml where
  type : String
  xml : String
deriving DecidableEq, Repr

/-- Class `Json`: field `Json: str = Field(None, alias="json")`; the
None default makes the field optional and None-accepting in pydantic
v1, hence `Option String` here. -/
structure Json where
  type : String
  Json : Option String
deriving DecidableEq, Repr

/-- Class `App`: required `content: str`. -/
structure App where
  type : String
  content : String
deriving DecidableEq, Repr

/-- Class `Poke`: required `name: PokeMethods` (note the wire key is
`name`, not `method`). -/
structure Poke where
  type : String
  name : PokeMethods
deriving DecidableEq, Repr

/-- Class `Dice`: required `value: int`. -/
structure Dice where
  type : String
  value : Int
deriving DecidableEq, Repr

/-- Class `File`: required `id: str`, `name: str`, `size: int`. -/
structure File where
  type : String
  id : String
  name : String
  size : Int
deriving DecidableEq, Repr

/-- Class `MiraiCode`: required `code: str`. -/
structure MiraiCode where
  type : String
  code : String
deriving DecidableEq, Repr

/-- Class `Image`: four optional string fields. -/
structure Image where
  type : String
  imageId : Option String
  url : Option String
  path : Option String
  base64 : Option String
deriving DecidableEq, Repr

mutual

/-- Class `Quote`: four required int fields and the required recursive
chain `origin: MessageChain`. -/
inductive Quote where
  | mk : String → Int → Int → Int → Int → MessageChain → Quote

/-- A runtime element value: an instance of `Element` or of one of the
embedded subclasses (Python values are class instances, so a chain may
hold any of these). -/
inductive ElementValue where
  | element : Element → ElementValue
  | plain : Plain → ElementValue
  | atEl : At → ElementValue
  | atAll : AtAll → ElementValue
  | face : Face → ElementValue
  | marketFace : MarketFace → ElementValue
  | xml : Xml → ElementValue
  | json : Json → ElementValue
  | app : App → ElementValue
  | poke : Poke → ElementValue
  | dice : Dice → ElementValue
  | file : File → ElementValue
  | miraiCode : MiraiCode → ElementValue
  | image : Image → ElementValue
  | quote : Quote → ElementValue

/-- Class `MessageChain`: custom-root model over `List[Element]`. -/
inductive MessageChain where
  | mk : List ElementValue → MessageChain

end

/-- The element list of a chain. -/
def MessageChain.root : MessageChain → List ElementValue
  | .mk r => r

/-- The discriminator of a `Quote` value. -/
def Quote.type : Quote → String
  | .mk t _ _ _ _ _ => t

/-- The `origin` chain of a `Quote` value. -/
def Quote.origin : Quote → MessageChain
  | .mk _ _ _ _ _ o => o

/-- A str field with a non-None default (every `type` discriminator):
absent takes the default without validation, None is rejected because
the default is not None. -/
def defStr (dflt : String) : Option JValue → Except ErrKind String
  | none => .ok dflt
  | some .null => .error .noneNotAllowed
  | some v => strCoe v

/-- Tag a scalar field result with its field name. -/
def fldV (name : String) : Except ErrKind α → Except VErr α
  | .ok a => .ok a
  | .error k => .error [(name, .kind k)]

/-- Tag a chain field result with its field name. -/
def fldC (name : String) : Except FErr α → Except VErr α
  | .ok a => .ok a
  | .error k => .error [(name, k)]

/-- Combine two field results, aggregating the errors of both in order,
as pydantic validate_model aggregates per-field errors. -/
def zipE : Except VErr α → Except VErr β → Except VErr (α × β)
  | .ok a, .ok b => .ok (a, b)
  | .error e, .ok _ => .error e
  | .ok _, .error e => .error e
  | .error e1, .error e2 => .error (e1 ++ e2)

/-- Validation of one payload against the base class `Element`: only
the `type` key is read (extra keys are ignored, `Extra.ignore`); a
non-dict payload is a DictError.  This is what every item of a
`MessageChain` root goes through. -/
def parseElement : JValue → Except ElemErr Element
  | .obj fields =>
    match defStr "Unknown" (getKey fields "type") with
    | .ok s => .ok ⟨s⟩
    | .error k => .error [("type", k)]
  | _ => .error [("", .notADict)]

/-- Validation of the items of a chain root, indices from `i`: pydantic
list validation visits every item in order and aggregates the indexed
errors; the successfully validated values are kept in order. -/
def parseItems : Nat → List JValue → List (Nat × ElemErr) × List Element
  | _, [] => ([], [])
  | i, v :: vs =>
    let rest := parseItems (i + 1) vs
    match parseElement v with
    | .error e => ((i, e) :: rest.1, rest.2)
    | .ok x => (rest.1, x :: rest.2)

/-- The `_enforce_dict_if_root` unwrap of pydantic v1: a dict whose
only key is `__root__` stands for its root value. -/
def rootValue : JValue → JValue
  | .obj [(k, v)] => if k = "__root__" then v else .obj [(k, v)]
  | v => v

/-- Decoding a raw payload into a `MessageChain` (the
`parse_obj`/`validate` path, which `Quote.origin` also goes through):
the root must be a list, every item is validated against the base
`Element`, any item error fails the whole chain with the aggregated
indexed errors, and on success the chain holds exactly the validated
base elements in order.  (The bare `MessageChain(raw)` constructor
differs only in skipping the `__root__` unwrap of `rootValue`.) -/
def chainParse (v : JValue) : Except ChainErr MessageChain :=
  match rootValue v with
  | .arr items =>
    match parseItems 0 items with
    | ([], vals) => .ok (.mk (vals.map ElementValue.element))
    | (e :: es, _) => .error (.items (e :: es))
  | _ => .error .notAList

/-- A required chain-valued field (`Quote.origin`). -/
def chainField : Option JValue → Except FErr MessageChain
  | none => .error (.kind .missing)
  | some .null => .error (.kind .noneNotAllowed)
  | some v =>
    match chainParse v with
    | .ok c => .ok c
    | .error e => .error (.chain e)

/-- Validation of a payload against `Plain`. -/
def parsePlain : JValue → Except VErr Plain
  | .obj fields =>
    match zipE (fldV "type" (defStr "Plain" (getKey fields "type")))
        (fldV "text" (reqStr (getKey fields "text"))) with
    | .ok (t, x) => .ok ⟨t, x⟩
    | .error e => .error e
  | _ => .error [("", .kind .notADict)]

/-- Validation of a payload against `At`. -/
def parseAt : JValue → Except VErr At
  | .obj fields =>
    match zipE (fldV "type" (defStr "At" (getKey fields "type")))
        (zipE (fldV "target" (reqInt (getKey fields "target")))
          (fldV "display" (optStr (getKey fields "display")))) with
    | .ok (t, x, y) => .ok ⟨t, x, y⟩
    | .error e => .error e
  | _ => .error [("", .kind .notADict)]

/-- Validation of a payload against `AtAll`. -/
def parseAtAll : JValue → Except VErr AtAll
  | .obj fields =>
    match fldV "type" (defStr "AtAll" (getKey fields "type")) with
    | .ok t => .ok ⟨t⟩
    | .error e => .error e
  | _ => .error [("", .kind .notADict)]

/-- Validation of a payload against `Face`. -/
def parseFace : JValue → Except VErr Face
  | .obj fields =>
    match zipE (fldV "type" (defStr "Face" (getKey fields "type")))
        (zipE (fldV "faceId" (optInt (getKey fields "faceId")))
          (fldV "name" (optStr (getKey fields "name")))) with
    | .ok (t, x, y) => .ok ⟨t, x, y⟩
    | .error e => .error e
  | _ => .error [("", .kind .notADict)]

/-- Validation of a payload against `MarketFace`. -/
def parseMarketFace : JValue → Except VErr MarketFace
  | .obj fields =>
    match zipE (fldV "type" (defStr "MarketFace" (getKey fields "type")))
        (zipE (fldV "id" (reqInt (getKey fields "id")))
          (fldV "name" (reqStr (getKey fields "name")))) with
    | .ok (t, x, y) => .ok ⟨t, x, y⟩
    | .error e => .error e
  | _ => .error [("", .kind .notADict)]

/-- Validation of a payload against `Xml`. -/
def parseXml : JValue → Except VErr Xml
  | .obj fields =>
    match zipE (fldV "type" (defStr "Xml" (getKey fields "type")))
        (fldV "xml" (reqStr (getKey fields "xml"))) with
    | .ok (t, x) => .ok ⟨t, x⟩
    | .error e => .error e
  | _ => .error [("", .kind .notADict)]

/-- Validation of a payload against `Json`: the content is read from
the wire key `json` (the alias), never from the field name `Json`, and
the None default makes it optional. -/
def parseJson : JValue → Except VErr Json
  | .obj fields =>
    match zipE (fldV "type" (defStr "Json" (getKey fields "type")))
        (fldV "json" (optStr (getKey fields "json"))) with
    | .ok (t, x) => .ok ⟨t, x⟩
    | .error e => .error e
  | _ => .error [("", .kind .notADict)]

/-- Validation of a payload against `App`. -/
def parseApp : JValue → Except VErr App
  | .obj fields =>
    match zipE (fldV "type" (defStr "App" (getKey fields "type")))
        (fldV "content" (reqStr (getKey fields "content"))) with
    | .ok (t, x) => .ok ⟨t, x⟩
    | .error e => .error e
  | _ => .error [("", .kind .notADict)]

/-- Validation of a payload against `Poke`: the enumerated field is
read from the wire key `name`. -/
def parsePoke : JValue → Except VErr Poke
  | .obj fields =>
    match zipE (fldV "type" (defStr "Poke" (getKey fields "type")))
        (fldV "name" (reqPoke (getKey fields "name"))) with
    | .ok (t, x) => .ok ⟨t, x⟩
    | .error e => .error e
  | _ => .error [("", .kind .notADict)]

/-- Validation of a payload against `Dice`. -/
def parseDice : JValue → Except VErr Dice
  | .obj fields =>
    match zipE (fldV "type" (defStr "Dice" (getKey fields "type")))
        (fldV "value" (reqInt (getKey fields "value"))) with
    | .ok (t, x) => .ok ⟨t, x⟩
    | .error e => .error e
  | _ => .error [("", .kind .notADict)]

/-- Validation of a payload against `File`. -/
def parseFile : JValue → Except VErr File
  | .obj fields =>
    match zipE (fldV "type" (defStr "File" (getKey fields "type")))
        (zipE (fldV "id" (reqStr (getKey fields "id")))
          (zipE (fldV "name" (reqStr (getKey fields "name")))
            (fldV "size" (reqInt (getKey fields "size"))))) with
    | .ok (t, x, y, z) => .ok ⟨t, x, y, z⟩
    | .error e => .error e
  | _ => .error [("", .kind .notADict)]

/-- Validation of a payload against `MiraiCode`. -/
def parseMiraiCode : JValue → Except VErr MiraiCode
  | .obj fields =>
    match zipE (fldV "type" (defStr "MiraiCode" (getKey fields "type")))
        (fldV "code" (reqStr (getKey fields "code"))) with
    | .ok (t, x) => .ok ⟨t, x⟩
    | .error e => .error e
  | _ => .error [("", .kind .notADict)]

/-- Validation of a payload against `Image`. -/
def parseImage : JValue → Except VErr Image
  | .obj fields =>
    match zipE (fldV "type" (defStr "Image" (getKey fields "type")))
        (zipE (fldV "imageId" (optStr (getKey fields "imageId")))
          (zipE (fldV "url" (optStr (getKey fields "url")))
            (zipE (fldV "path" (optStr (getKey fields "path")))
              (fldV "base64" (optStr (getKey fields "base64")))))) with
    | .ok (t, a, b, c, d) => .ok ⟨t, a, b, c, d⟩
    | .error e => .error e
  | _ => .error [("", .kind .notADict)]

/-- Validation of a payload against `Quote`: the required `origin`
value is decoded as a nested chain. -/
def parseQuote : JValue → Except VErr Quote
  | .obj fields =>
    match zipE (fldV "type" (defStr "Quote" (getKey fields "type")))
        (zipE (fldV "id" (reqInt (getKey fields "id")))
          (zipE (fldV "groupId" (reqInt (getKey fields "groupId")))
            (zipE (fldV "senderId" (reqInt (getKey fields "senderId")))
              (zipE (fldV "targetId" (reqInt (getKey fields "targetId")))
                (fldC "origin" (chainField (getKey fields "origin"))))))) with
    | .ok (t, i, g, s, tg, o) => .ok (.mk t i g s tg o)
    | .error e => .error e
  | _ => .error [("", .kind .notADict)]

/-- Wire form of an optional string field in `.dict()` export: None is
included as null (`exclude_none` defaults to False). -/
def jOptStr : Option String → JValue
  | none => .null
  | some s => .str s

/-- Wire form of an optional int field in `.dict()` export. -/
def jOptInt : Option Int → JValue
  | none => .null
  | some n => .int n

/-- Export of a base `Element` by `.dict()`: field order is declaration order. -/
def Element.dict (e : Element) : JValue := .obj [("type", .str e.type)]

/-- Export of `Plain` by `.dict()`. -/
def Plain.dict (p : Plain) : JValue :=
  .obj [("type", .str p.type), ("text", .str p.text)]

/-- Export of `At` by `.dict()`. -/
def At.dict (a : At) : JValue :=
  .obj [("type", .str a.type), ("target", .int a.target),
    ("display", jOptStr a.display)]

/-- Export of `AtAll` by `.dict()`. -/
def AtAll.dict (a : AtAll) : JValue := .obj [("type", .str a.type)]

/-- Export of `Face` by `.dict()`. -/
def Face.dict (f : Face) : JValue :=
  .obj [("type", .str f.type), ("faceId", jOptInt f.faceId),
    ("name", jOptStr f.name)]

/-- Export of `MarketFace` by `.dict()`. -/
def MarketFace.dict (m : MarketFace) : JValue :=
  .obj [("type", .str m.type), ("id", .int m.id), ("name", .str m.name)]

/-- Export of `Xml` by `.dict()`. -/
def Xml.dict (x : Xml) : JValue :=
  .obj [("type", .str x.type), ("xml", .str x.xml)]

/-- Export of `Json` by default `.dict()`: `by_alias` defaults to
False, so the content is written under the internal field name `Json`,
not under the wire alias `json`. -/
def Json.dict (j : Mockery.Json) : JValue :=
  .obj [("type", .str j.type), ("Json", jOptStr j.Json)]

/-- Export of `Json` by `.dict(by_alias=True)`: the content is written
under the wire alias `json`. -/
def Json.dictByAlias (j : Mockery.Json) : JValue :=
  .obj [("type", .str j.type), ("json", jOptStr j.Json)]

/-- Export of `App` by `.dict()`. -/
def App.dict (a : App) : JValue :=
  .obj [("type", .str a.type), ("content", .str a.content)]

/-- Export of `Poke` by `.dict()` (on the wire the enum member is its
string value). -/
def Poke.dict (p : Poke) : JValue :=
  .obj [("type", .str p.type), ("name", .str p.name.value)]

/-- Export of `Dice` by `.dict()`. -/
def Dice.dict (d : Dice) : JValue :=
  .obj [("type", .str d.type), ("value", .int d.value)]

/-- Export of `File` by `.dict()`. -/
def File.dict (f : File) : JValue :=
  .obj [("type", .str f.type), ("id", .str f.id), ("name", .str f.name),
    ("size", .int f.size)]

/-- Export of `MiraiCode` by `.dict()`. -/
def MiraiCode.dict (m : MiraiCode) : JValue :=
  .obj [("type", .str m.type), ("code", .str m.code)]

/-- Export of `Image` by `.dict()`. -/
def Image.dict (i : Image) : JValue :=
  .obj [("type", .str i.type), ("imageId", jOptStr i.imageId),
    ("url", jOptStr i.url), ("path", jOptStr i.path),
    ("base64", jOptStr i.base64)]

mutual

/-- Export of `Quote` by `.dict()`: the nested custom-root chain is
unwrapped to its plain array by `_get_value`. -/
def Quote.dict : Quote → JValue
  | .mk t i g s tg o =>
    .obj [("type", .str t), ("id", .int i), ("groupId", .int g),
      ("senderId", .int s), ("targetId", .int tg),
      ("origin", MessageChain.encode o)]

/-- Export of a runtime element value: each instance exports through
the `.dict()` of its own class. -/
def ElementValue.dict : ElementValue → JValue
  | .element e => Element.dict e
  | .plain p => Plain.dict p
  | .atEl a => At.dict a
  | .atAll a => AtAll.dict a
  | .face f => Face.dict f
  | .marketFace m => MarketFace.dict m
  | .xml x => Xml.dict x
  | .json j => Json.dict j
  | .app a => App.dict a
  | .poke p => Poke.dict p
  | .dice d => Dice.dict d
  | .file f => File.dict f
  | .miraiCode m => MiraiCode.dict m
  | .image i => Image.dict i
  | .quote q => Quote.dict q

/-- Wire encoding of a chain: the plain array of the element exports,
in order (the `__root__` key of the top-level `.dict()` is unwrapped on
the wire, exactly as `_get_value` unwraps it for nested chains). -/
def MessageChain.encode : MessageChain → JValue
  | .mk root => .arr (encodeElems root)

/-- Exports of a list of elements, in order. -/
def encodeElems : List ElementValue → List JValue
  | [] => []
  | e :: es => ElementValue.dict e :: encodeElems es

end

/-- Test whether a runtime element is an instance of the base class. -/
def ElementValue.isBase : ElementValue → Bool
  | .element _ => true
  | _ => false

/-- Whether every element of a chain is a base `Element` instance. -/
def baseOnly (c : MessageChain) : Bool := c.root.all ElementValue.isBase

/-- Index and error of the first item of a raw chain root that fails to
validate, counting from `i` (the fail-fast reading of the spec words). -/
def firstFailAux : Nat → List JValue → Option (Nat × ElemErr)
  | _, [] => none
  | i, v :: vs =>
    match parseElement v with
    | .error e => some (i, e)
    | .ok _ => firstFailAux (i + 1) vs

/-- Index and error of the first failing item of a raw chain root. -/
def firstFail (items : List JValue) : Option (Nat × ElemErr) :=
  firstFailAux 0 items

theorem encodeElems_eq_map (es : List ElementValue) :
    encodeElems es = es.map ElementValue.dict := by
  induction es with
  | nil => rfl
  | cons e es ih => simp [encodeElems, ih]

theorem parseItems_errs_head (i : Nat) (items : List JValue) :
    (parseItems i items).1.head? = firstFailAux i items := by
  induction items generalizing i with
  | nil => rfl
  | cons v vs ih =>
    simp only [parseItems, firstFailAux]
    cases h : parseElement v with
    | error e => simp
    | ok x => simpa using ih (i + 1)

theorem parseItems_errs_nil (i : Nat) (items : List JValue) :
    (parseItems i items).1 = [] ↔ firstFailAux i items = none := by
  induction items generalizing i with
  | nil => simp [parseItems, firstFailAux]
  | cons v vs ih =>
    simp only [parseItems, firstFailAux]
    cases h : parseElement v with
    | error e => simp
    | ok x => simpa using ih (i + 1)

theorem parseItems_ok_spec (items : List JValue) (i : Nat) (vals : List Element)
    (h : parseItems i items = ([], vals)) :
    vals.length = items.length ∧
      ∀ (j : Nat) (v : JValue), items[j]? = some v → ∃ x, parseElement v = .ok x ∧ vals[j]? = some x := by
  induction items generalizing i vals with
  | nil =>
    simp only [parseItems] at h
    cases h
    simp
  | cons w ws ih =>
    simp only [parseItems] at h
    cases hw : parseElement w with
    | error e => rw [hw] at h; exact absurd (congrArg Prod.fst h) (by simp)
    | ok x =>
      rw [hw] at h
      cases hr : parseItems (i + 1) ws with
      | mk es rest =>
        rw [hr] at h
        have h1 : es = [] := by simpa using congrArg Prod.fst h
        have h2 : vals = x :: rest := by
          have := congrArg Prod.snd h
          simp at this
          exact this.symm
        subst h1
        obtain ⟨hl, hg⟩ := ih (i + 1) rest hr
        subst h2
        refine ⟨by simp [hl], ?_⟩
        intro j v hj
        cases j with
        | zero =>
          simp at hj
          subst hj
          exact ⟨x, hw, by simp⟩
        | succ k =>
          simp only [List.getElem?_cons_succ] at hj
          obtain ⟨y, hy1, hy2⟩ := hg k v hj
          exact ⟨y, hy1, by simpa using hy2⟩

theorem parseItems_encode_base (root : List ElementValue) (i : Nat)
    (h : root.all ElementValue.isBase = true) :
    ∃ vals, parseItems i (encodeElems root) = ([], vals) ∧
      vals.map ElementValue.element = root := by
  induction root generalizing i with
  | nil => exact ⟨[], rfl, rfl⟩
  | cons e es ih =>
    simp only [List.all_cons, Bool.and_eq_true] at h
    obtain ⟨he, hes⟩ := h
    obtain ⟨vals, hv, hm⟩ := ih (i + 1) hes
    cases e with
    | element el =>
      cases el with
      | mk t =>
        refine ⟨⟨t⟩ :: vals, ?_, by simp [hm]⟩
        simp only [encodeElems, parseItems]
        rw [hv]
        rfl
    | plain p => simp [ElementValue.isBase] at he
    | atEl a => simp [ElementValue.isBase] at he
    | atAll a => simp [ElementValue.isBase] at he
    | face f => simp [ElementValue.isBase] at he
    | marketFace m => simp [ElementValue.isBase] at he
    | xml x => simp [ElementValue.isBase] at he
    | json j => simp [ElementValue.isBase] at he
    | app a => simp [ElementValue.isBase] at he
    | poke p => simp [ElementValue.isBase] at he
    | dice d => simp [ElementValue.isBase] at he
    | file f => simp [ElementValue.isBase] at he
    | miraiCode m => simp [ElementValue.isBase] at he
    | image im => simp [ElementValue.isBase] at he
    | quote q => simp [ElementValue.isBase] at he

theorem chainParse_encode_base (c : MessageChain) (h : baseOnly c = true) :
    chainParse (MessageChain.encode c) = .ok c := by
  cases c with
  | mk root =>
    obtain ⟨vals, hv, hm⟩ := parseItems_encode_base root 0 h
    show chainParse (.arr (encodeElems root)) = _
    simp only [chainParse, rootValue]
    rw [hv]
    exact congrArg (fun l => Except.ok (MessageChain.mk l)) hm

theorem parseElement_typeStr (fields : List (String × JValue)) (s : String)
    (h : getKey fields "type" = some (.str s)) :
    parseElement (.obj fields) = .ok ⟨s⟩ := by
  simp [parseElement, defStr, h, strCoe]

theorem parseElement_typeAbsent (fields : List (String × JValue))
    (h : getKey fields "type" = none) :
    parseElement (.obj fields) = .ok ⟨"Unknown"⟩ := by
  simp [parseElement, defStr, h]

theorem zipE_error_right {α β : Type} (a : Except VErr α) (b : Except VErr β)
    (e : VErr) (x : String × FErr) (hb : b = .error e) (hx : x ∈ e) :
    ∃ errs, zipE a b = .error errs ∧ x ∈ errs := by
  cases a with
  | ok av => exact ⟨e, by simp [zipE, hb], hx⟩
  | error e1 => exact ⟨e1 ++ e, by simp [zipE, hb], List.mem_append_right e1 hx⟩

theorem chainParse_ok_spec (items : List JValue) (c : MessageChain)
    (h : chainParse (.arr items) = .ok c) :
    c.root.length = items.length ∧
      ∀ (i : Nat) (v : JValue), items[i]? = some v →
        ∃ e : Element, parseElement v = .ok e ∧ c.root[i]? = some (.element e) := by
  have h2 : (match parseItems 0 items with
      | ([], vals) => Except.ok (MessageChain.mk (vals.map ElementValue.element))
      | (e :: es, _) => Except.error (ChainErr.items (e :: es))) = Except.ok c := h
  cases hp : parseItems 0 items with
  | mk errs vals =>
    rw [hp] at h2
    cases errs with
    | cons e es => exact absurd h2 (by simp)
    | nil =>
      have hc : c = MessageChain.mk (vals.map ElementValue.element) :=
        (Except.ok.inj h2).symm
      obtain ⟨hl, hg⟩ := parseItems_ok_spec items 0 vals hp
      subst hc
      refine ⟨by simp [MessageChain.root, hl], ?_⟩
      intro i v hv
      obtain ⟨x, hx1, hx2⟩ := hg i v hv
      exact ⟨x, hx1, by simp [MessageChain.root, hx2]⟩

theorem parseElement_dict (e : Element) : parseElement (Element.dict e) = .ok e := by
  cases e; rfl

theorem parsePlain_dict (p : Plain) : parsePlain (Plain.dict p) = .ok p := by
  cases p; rfl

theorem parseAt_dict (a : At) : parseAt (At.dict a) = .ok a := by
  cases a with
  | mk t x d => cases d <;> rfl

theorem parseAtAll_dict (a : AtAll) : parseAtAll (AtAll.dict a) = .ok a := by
  cases a; rfl

theorem parseFace_dict (f : Face) : parseFace (Face.dict f) = .ok f := by
  cases f with
  | mk t i n => cases i <;> cases n <;> rfl

theorem parseMarketFace_dict (m : MarketFace) :
    parseMarketFace (MarketFace.dict m) = .ok m := by
  cases m; rfl

theorem parseXml_dict (x : Xml) : parseXml (Xml.dict x) = .ok x := by
  cases x; rfl

theorem parseJson_dict_none (j : Mockery.Json) (h : j.Json = none) :
    parseJson (Json.dict j) = .ok j := by
  cases j with
  | mk t c => cases h; rfl

theorem parseJson_dictByAlias (j : Mockery.Json) :
    parseJson (Json.dictByAlias j) = .ok j := by
  cases j with
  | mk t c => cases c <;> rfl

theorem parseApp_dict (a : App) : parseApp (App.dict a) = .ok a := by
  cases a; rfl

theorem parsePoke_dict (p : Poke) : parsePoke (Poke.dict p) = .ok p := by
  cases p with
  | mk t m => cases m <;> rfl

theorem parseDice_dict (d : Dice) : parseDice (Dice.dict d) = .ok d := by
  cases d; rfl

theorem parseFile_dict (f : File) : parseFile (File.dict f) = .ok f := by
  cases f; rfl

theorem parseMiraiCode_dict (m : MiraiCode) :
    parseMiraiCode (MiraiCode.dict m) = .ok m := by
  cases m; rfl

theorem parseImage_dict (i : Image) : parseImage (Image.dict i) = .ok i := by
  cases i with
  | mk t a b c d => cases a <;> cases b <;> cases c <;> cases d <;> rfl

theorem parseQuote_dict (q : Quote) (h : baseOnly q.origin = true) :
    parseQuote (Quote.dict q) = .ok q := by
  cases q with
  | mk t i g s tg o =>
    have hc : chainParse (MessageChain.encode o) = .ok o :=
      chainParse_encode_base o h
    cases o with
    | mk root =>
      simp only [MessageChain.encode] at hc
      simp [parseQuote, Quote.dict, getKey, defStr, strCoe, reqInt, intCoe,
        chainField, fldV, fldC, zipE, MessageChain.encode, hc]

/-- C1 counterexample: `decode(encode(c)) == c` fails already for the
one-element chain holding the Plain element with text "hi": chain
decoding collapses every item to a base `Element`, so the decoded chain
is not the original one.  The claim as stated is therefore false. -/
theorem claim1_roundtrip_cex :
    chainParse (MessageChain.encode (MessageChain.mk [.plain ⟨"Plain", "hi"⟩])) ≠
      Except.ok (MessageChain.mk [.plain ⟨"Plain", "hi"⟩]) := by
  intro h
  have h0 : Except.ok (MessageChain.mk [ElementValue.element ⟨"Plain"⟩]) =
      Except.ok (MessageChain.mk [ElementValue.plain ⟨"Plain", "hi"⟩]) := h
  exact ElementValue.noConfusion
    (List.cons.inj (MessageChain.mk.inj (Except.ok.inj h0))).1

/-- C1 amended: round-trip identity holds per variant through the
variant validator for every embedded variant value, with two provisos
forced by the counterexample: the aliased Json content round-trips only
when absent (or under by-alias export), and a value or chain embedding
a chain round-trips only when the embedded elements are base `Element`
instances, because chain decoding produces base elements only. -/
theorem claim1_roundtrip_amended :
    (∀ e : Element, parseElement (Element.dict e) = .ok e) ∧
    (∀ p : Plain, parsePlain (Plain.dict p) = .ok p) ∧
    (∀ a : At, parseAt (At.dict a) = .ok a) ∧
    (∀ a : AtAll, parseAtAll (AtAll.dict a) = .ok a) ∧
    (∀ f : Face, parseFace (Face.dict f) = .ok f) ∧
    (∀ m : MarketFace, parseMarketFace (MarketFace.dict m) = .ok m) ∧
    (∀ x : Xml, parseXml (Xml.dict x) = .ok x) ∧
    (∀ a : App, parseApp (App.dict a) = .ok a) ∧
    (∀ p : Poke, parsePoke (Poke.dict p) = .ok p) ∧
    (∀ d : Dice, parseDice (Dice.dict d) = .ok d) ∧
    (∀ f : File, parseFile (File.dict f) = .ok f) ∧
    (∀ m : MiraiCode, parseMiraiCode (MiraiCode.dict m) = .ok m) ∧
    (∀ i : Image, parseImage (Image.dict i) = .ok i) ∧
    (∀ j : Mockery.Json, j.Json = none → parseJson (Json.dict j) = .ok j) ∧
    (∀ j : Mockery.Json, parseJson (Json.dictByAlias j) = .ok j) ∧
    (∀ q : Quote, baseOnly q.origin = true → parseQuote (Quote.dict q) = .ok q) ∧
    (∀ c : MessageChain, baseOnly c = true →
      chainParse (MessageChain.encode c) = .ok c) :=
  ⟨parseElement_dict, parsePlain_dict, parseAt_dict, parseAtAll_dict,
   parseFace_dict, parseMarketFace_dict, parseXml_dict, parseApp_dict,
   parsePoke_dict, parseDice_dict, parseFile_dict, parseMiraiCode_dict,
   parseImage_dict, parseJson_dict_none, parseJson_dictByAlias,
   parseQuote_dict, chainParse_encode_base⟩

/-- C1 witness: the amended round trips at concrete inputs, with each
hypothesis discharged there. -/
theorem claim1_roundtrip_amended_witness :
    parseQuote (Quote.dict (Quote.mk "Quote" 1 2 3 4
        (MessageChain.mk [.element ⟨"Plain"⟩]))) =
      .ok (Quote.mk "Quote" 1 2 3 4 (MessageChain.mk [.element ⟨"Plain"⟩])) ∧
    chainParse (MessageChain.encode (MessageChain.mk [.element ⟨"AtAll"⟩])) =
      .ok (MessageChain.mk [.element ⟨"AtAll"⟩]) ∧
    parseJson (Json.dict (Json.mk "Json" none)) = .ok (Json.mk "Json" none) :=
  ⟨claim1_roundtrip_amended.2.2.2.2.2.2.2.2.2.2.2.2.2.2.2.1
      (Quote.mk "Quote" 1 2 3 4 (MessageChain.mk [.element ⟨"Plain"⟩])) (by rfl),
   claim1_roundtrip_amended.2.2.2.2.2.2.2.2.2.2.2.2.2.2.2.2
      (MessageChain.mk [.element ⟨"AtAll"⟩]) (by rfl),
   claim1_roundtrip_amended.2.2.2.2.2.2.2.2.2.2.2.2.2.1
      (Json.mk "Json" none) rfl⟩

/-- C2 counterexample: decoding a tagged object whose `type` is not one
of the fixed tags (or whose `type` is absent) does not fail at all: the
chain decode succeeds with a base element carrying the given tag string
("Unknown" when absent).  No UnknownElementKind failure exists. -/
theorem claim2_unknown_tag_cex :
    chainParse (.arr [.obj [("type", .str "NotARealElementKind")]]) =
      .ok (MessageChain.mk [.element ⟨"NotARealElementKind"⟩]) ∧
    parseElement (.obj [("sometag", .int 1)]) = .ok ⟨"Unknown"⟩ :=
  ⟨rfl, rfl⟩

/-- C2 amended: decoding a tagged object with any `type` string keeps
that string in a base element, and an absent `type` defaults to
"Unknown"; decoding never fails on an unknown tag and never produces a
concrete variant. -/
theorem claim2_unknown_tag_amended :
    (∀ (fields : List (String × JValue)) (s : String),
      getKey fields "type" = some (.str s) →
        parseElement (.obj fields) = .ok ⟨s⟩) ∧
    (∀ fields : List (String × JValue),
      getKey fields "type" = none →
        parseElement (.obj fields) = .ok ⟨"Unknown"⟩) :=
  ⟨parseElement_typeStr, parseElement_typeAbsent⟩

/-- C2 witness: the amended statement at a concrete unknown tag. -/
theorem claim2_unknown_tag_amended_witness :
    parseElement (.obj [("type", .str "Bogus")]) = .ok ⟨"Bogus"⟩ :=
  claim2_unknown_tag_amended.1 [("type", .str "Bogus")] "Bogus" rfl

/-- C3: every successfully chain-decoded payload yields exactly one
base `Element` per payload at the same index (no payload is dispatched
to a concrete variant type, variant fields are discarded by the base
validator which reads only `type`), and the base validator keeps the
payload tag string, defaulting to "Unknown" when the `type` key is
absent. -/
theorem claim3_chain_base_only :
    (∀ (items : List JValue) (c : MessageChain), chainParse (.arr items) = .ok c →
      c.root.length = items.length ∧
      ∀ (i : Nat) (v : JValue), items[i]? = some v →
        ∃ e : Element, parseElement v = .ok e ∧ c.root[i]? = some (.element e)) ∧
    (∀ (fields : List (String × JValue)) (s : String),
      getKey fields "type" = some (.str s) →
        parseElement (.obj fields) = .ok ⟨s⟩) ∧
    (∀ fields : List (String × JValue),
      getKey fields "type" = none →
        parseElement (.obj fields) = .ok ⟨"Unknown"⟩) :=
  ⟨chainParse_ok_spec, parseElement_typeStr, parseElement_typeAbsent⟩

/-- C3 witness: the chain spec at a concrete Plain payload, hypotheses
discharged by rfl. -/
theorem claim3_chain_base_only_witness :
    (MessageChain.mk [ElementValue.element ⟨"Plain"⟩]).root.length =
      [JValue.obj [("type", JValue.str "Plain"), ("text", JValue.str "hi")]].length ∧
    ∃ e : Element,
      parseElement (JValue.obj [("type", JValue.str "Plain"), ("text", JValue.str "hi")]) =
        .ok e ∧
      (MessageChain.mk [ElementValue.element ⟨"Plain"⟩]).root[0]? =
        some (.element e) := by
  obtain ⟨hl, hg⟩ := claim3_chain_base_only.1
    [JValue.obj [("type", JValue.str "Plain"), ("text", JValue.str "hi")]]
    (MessageChain.mk [ElementValue.element ⟨"Plain"⟩]) rfl
  exact ⟨hl, hg 0 _ rfl⟩

theorem ofValue_value (s : String) (m : PokeMethods)
    (h : PokeMethods.ofValue s = some m) : PokeMethods.value m = s := by
  unfold PokeMethods.ofValue at h
  simpa using List.find?_some h

theorem ofValue_mem_allValues (s : String) (m : PokeMethods)
    (h : PokeMethods.ofValue s = some m) : s ∈ PokeMethods.allValues := by
  have hv := ofValue_value s m h
  unfold PokeMethods.ofValue at h
  have hm : m ∈ PokeMethods.members := List.mem_of_find?_eq_some h
  rw [← hv]
  exact List.mem_map_of_mem _ hm

theorem mem_allValues_ofValue (s : String) (h : s ∈ PokeMethods.allValues) :
    ∃ m, PokeMethods.ofValue s = some m := by
  simp only [PokeMethods.allValues, List.mem_map] at h
  obtain ⟨m, hm, hv⟩ := h
  have hs : (PokeMethods.members.find? (fun m => m.value = s)).isSome :=
    List.find?_isSome.mpr ⟨m, hm, by simp [hv]⟩
  exact Option.isSome_iff_exists.mp hs

theorem parsePoke_name_ok (s : String) (m : PokeMethods)
    (h : PokeMethods.ofValue s = some m) :
    parsePoke (.obj [("type", .str "Poke"), ("name", .str s)]) =
      .ok ⟨"Poke", m⟩ := by
  simp [parsePoke, getKey, defStr, strCoe, reqPoke, fldV, zipE, h]

theorem parsePoke_name_err (s : String) (h : PokeMethods.ofValue s = none) :
    parsePoke (.obj [("type", .str "Poke"), ("name", .str s)]) =
      .error [("name", .kind (.enumValue PokeMethods.allValues))] := by
  simp [parsePoke, getKey, defStr, strCoe, reqPoke, fldV, zipE, h]

theorem parsePoke_member_iff (s : String) :
    (∃ p : Poke, parsePoke (.obj [("type", .str "Poke"), ("name", .str s)]) =
      .ok p) ↔ s ∈ PokeMethods.allValues := by
  constructor
  · rintro ⟨p, hp⟩
    cases ho : PokeMethods.ofValue s with
    | none => rw [parsePoke_name_err s ho] at hp; exact absurd hp (by simp)
    | some m => exact ofValue_mem_allValues s m ho
  · intro hm
    obtain ⟨m, ho⟩ := mem_allValues_ofValue s hm
    exact ⟨⟨"Poke", m⟩, parsePoke_name_ok s m ho⟩

/-- C4 counterexample: the enumerated field of `Poke` lives under the
wire key `name`, not `method`; a payload carrying
`method: "DianZan"` (as the claim words it) does not succeed but fails
with the `name` field missing. -/
theorem claim4_poke_method_cex :
    parsePoke (.obj [("type", .str "Poke"), ("method", .str "DianZan")]) =
      .error [("name", .kind .missing)] := rfl

/-- C4 amended: with the wire key `name` (as declared by the code), a
Poke payload with `name: "DianZan"` decodes, `name: "NotARealMethod"`
fails with the enum-membership error naming the 16 permitted values,
and in general decoding succeeds exactly for members of the fixed
16-value set. -/
theorem claim4_poke_name_amended :
    parsePoke (.obj [("type", .str "Poke"), ("name", .str "DianZan")]) =
      .ok ⟨"Poke", .DianZan⟩ ∧
    parsePoke (.obj [("type", .str "Poke"), ("name", .str "NotARealMethod")]) =
      .error [("name", .kind (.enumValue PokeMethods.allValues))] ∧
    PokeMethods.allValues.length = 16 ∧
    ∀ s : String,
      (∃ p : Poke, parsePoke (.obj [("type", .str "Poke"), ("name", .str s)]) =
        .ok p) ↔ s ∈ PokeMethods.allValues :=
  ⟨rfl, rfl, rfl, parsePoke_member_iff⟩

/-- C4 witness: the amended statement applied at a concrete member. -/
theorem claim4_poke_name_amended_witness :
    ∃ p : Poke, parsePoke (.obj [("type", .str "Poke"), ("name", .str "BiXin")]) =
      .ok p :=
  (claim4_poke_name_amended.2.2.2 "BiXin").mpr (by decide)

/-- C5 counterexample: the default export of a Json element writes the
content under the internal field name `Json`, so the claim that
encoding writes it back under the wire key `json`, never under the
internal field name, is false. -/
theorem claim5_json_alias_cex :
    Json.dict ⟨"Json", some "x"⟩ =
      .obj [("type", .str "Json"), ("Json", .str "x")] ∧
    getKey [("type", JValue.str "Json"), ("Json", JValue.str "x")] "json" =
      none :=
  ⟨rfl, rfl⟩

/-- C5 amended: decoding does read the content from the wire key
`json` (the alias), including the concrete example payload; but the
default export writes it under the internal field name `Json`, and only
the by-alias export writes the wire key `json`. -/
theorem claim5_json_alias_amended :
    (∀ s : String, parseJson (.obj [("type", .str "Json"), ("json", .str s)]) =
      .ok ⟨"Json", some s⟩) ∧
    parseJson (.obj [("type", .str "Json"), ("json", .str "\x7b\"a\":1\x7d")]) =
      .ok ⟨"Json", some "\x7b\"a\":1\x7d"⟩ ∧
    (∀ j : Mockery.Json,
      Json.dict j = .obj [("type", .str j.type), ("Json", jOptStr j.Json)]) ∧
    (∀ j : Mockery.Json,
      Json.dictByAlias j =
        .obj [("type", .str j.type), ("json", jOptStr j.Json)]) :=
  ⟨fun _ => rfl, rfl, fun _ => rfl, fun _ => rfl⟩

theorem zipE_error_left_mem {α β : Type} (a : Except VErr α) (b : Except VErr β)
    (e : VErr) (x : String × FErr) (ha : a = .error e) (hx : x ∈ e) :
    ∃ errs, zipE a b = .error errs ∧ x ∈ errs := by
  cases b with
  | ok bv => exact ⟨e, by simp [zipE, ha], hx⟩
  | error e2 => exact ⟨e ++ e2, by simp [zipE, ha], List.mem_append_left e2 hx⟩

theorem reqStr_ok (o : Option JValue) (x : String) (h : reqStr o = .ok x) :
    ∃ v, o = some v ∧ v ≠ .null ∧ strCoe v = .ok x := by
  cases o with
  | none => simp [reqStr] at h
  | some v =>
    cases v with
    | null => simp [reqStr] at h
    | bool b => exact ⟨.bool b, rfl, by simp, h⟩
    | int n => exact ⟨.int n, rfl, by simp, h⟩
    | str s => exact ⟨.str s, rfl, by simp, h⟩
    | arr l => exact ⟨.arr l, rfl, by simp, h⟩
    | obj fs => exact ⟨.obj fs, rfl, by simp, h⟩

theorem reqInt_ok (o : Option JValue) (n : Int) (h : reqInt o = .ok n) :
    ∃ v, o = some v ∧ v ≠ .null ∧ intCoe v = .ok n := by
  cases o with
  | none => simp [reqInt] at h
  | some v =>
    cases v with
    | null => simp [reqInt] at h
    | bool b => exact ⟨.bool b, rfl, by simp, h⟩
    | int m => exact ⟨.int m, rfl, by simp, h⟩
    | str s => exact ⟨.str s, rfl, by simp, h⟩
    | arr l => exact ⟨.arr l, rfl, by simp, h⟩
    | obj fs => exact ⟨.obj fs, rfl, by simp, h⟩

theorem plain_text_missing (fields : List (String × JValue))
    (h : getKey fields "text" = none) :
    ∃ errs, parsePlain (.obj fields) = .error errs ∧
      ("text", FErr.kind .missing) ∈ errs := by
  have hx : fldV "text" (reqStr (getKey fields "text")) =
      .error [("text", FErr.kind .missing)] := by rw [h]; rfl
  obtain ⟨errs, hz, hm⟩ := zipE_error_right
    (fldV "type" (defStr "Plain" (getKey fields "type"))) _ _
    ("text", FErr.kind .missing) hx (by simp)
  refine ⟨errs, ?_, hm⟩
  simp only [parsePlain]
  rw [hz]

theorem plain_ok_text (fields : List (String × JValue)) (p : Plain)
    (hp : parsePlain (.obj fields) = .ok p) :
    ∃ v, getKey fields "text" = some v ∧ v ≠ .null ∧ strCoe v = .ok p.text := by
  cases hT : defStr "Plain" (getKey fields "type") with
  | error e =>
    cases hX : reqStr (getKey fields "text") with
    | ok x => simp [parsePlain, zipE, fldV, hT, hX] at hp
    | error k => simp [parsePlain, zipE, fldV, hT, hX] at hp
  | ok t =>
    cases hX : reqStr (getKey fields "text") with
    | error k => simp [parsePlain, zipE, fldV, hT, hX] at hp
    | ok x =>
      have hpe : Plain.mk t x = p := by
        simp [parsePlain, zipE, fldV, hT, hX] at hp
        exact hp
      obtain ⟨v, hv, hn, hs⟩ := reqStr_ok _ _ hX
      exact ⟨v, hv, hn, by rw [← hpe]; exact hs⟩

theorem marketFace_id_missing (fields : List (String × JValue))
    (h : getKey fields "id" = none) :
    ∃ errs, parseMarketFace (.obj fields) = .error errs ∧
      ("id", FErr.kind .missing) ∈ errs := by
  have hi : fldV "id" (reqInt (getKey fields "id")) =
      .error [("id", FErr.kind .missing)] := by rw [h]; rfl
  obtain ⟨e2, hz2, hm2⟩ := zipE_error_left_mem _
    (fldV "name" (reqStr (getKey fields "name"))) _
    ("id", FErr.kind .missing) hi (by simp)
  obtain ⟨errs, hz, hm⟩ := zipE_error_right
    (fldV "type" (defStr "MarketFace" (getKey fields "type"))) _ _
    ("id", FErr.kind .missing) hz2 hm2
  refine ⟨errs, ?_, hm⟩
  simp only [parseMarketFace]
  rw [hz]

theorem marketFace_id_arr (fields : List (String × JValue)) (l : List JValue)
    (h : getKey fields "id" = some (.arr l)) :
    ∃ errs, parseMarketFace (.obj fields) = .error errs ∧
      ("id", FErr.kind .intType) ∈ errs := by
  have hi : fldV "id" (reqInt (getKey fields "id")) =
      .error [("id", FErr.kind .intType)] := by rw [h]; rfl
  obtain ⟨e2, hz2, hm2⟩ := zipE_error_left_mem _
    (fldV "name" (reqStr (getKey fields "name"))) _
    ("id", FErr.kind .intType) hi (by simp)
  obtain ⟨errs, hz, hm⟩ := zipE_error_right
    (fldV "type" (defStr "MarketFace" (getKey fields "type"))) _ _
    ("id", FErr.kind .intType) hz2 hm2
  refine ⟨errs, ?_, hm⟩
  simp only [parseMarketFace]
  rw [hz]

theorem marketFace_ok_id (fields : List (String × JValue)) (m : MarketFace)
    (hp : parseMarketFace (.obj fields) = .ok m) :
    ∃ v, getKey fields "id" = some v ∧ v ≠ .null ∧ intCoe v = .ok m.id := by
  cases hT : defStr "MarketFace" (getKey fields "type") with
  | error e =>
    cases hI : reqInt (getKey fields "id") with
    | ok i =>
      cases hN : reqStr (getKey fields "name") with
      | ok n => simp [parseMarketFace, zipE, fldV, hT, hI, hN] at hp
      | error k => simp [parseMarketFace, zipE, fldV, hT, hI, hN] at hp
    | error k =>
      cases hN : reqStr (getKey fields "name") with
      | ok n => simp [parseMarketFace, zipE, fldV, hT, hI, hN] at hp
      | error k2 => simp [parseMarketFace, zipE, fldV, hT, hI, hN] at hp
  | ok t =>
    cases hI : reqInt (getKey fields "id") with
    | error k =>
      cases hN : reqStr (getKey fields "name") with
      | ok n => simp [parseMarketFace, zipE, fldV, hT, hI, hN] at hp
      | error k2 => simp [parseMarketFace, zipE, fldV, hT, hI, hN] at hp
    | ok i =>
      cases hN : reqStr (getKey fields "name") with
      | error k => simp [parseMarketFace, zipE, fldV, hT, hI, hN] at hp
      | ok n =>
        have hpe : MarketFace.mk t i n = m := by
          simp [parseMarketFace, zipE, fldV, hT, hI, hN] at hp
          exact hp
        obtain ⟨v, hv, hn, hs⟩ := reqInt_ok _ _ hI
        exact ⟨v, hv, hn, by rw [← hpe]; exact hs⟩

/-- C6 counterexample: pydantic v1 coerces, so a MarketFace payload
whose `id` is not an integer (the string "7", or the bool true) does
not fail with a type error as the claim states: it decodes with the
coerced value. -/
theorem claim6_required_field_cex :
    parseMarketFace (.obj [("type", .str "MarketFace"), ("id", .str "7"),
        ("name", .str "f")]) = .ok ⟨"MarketFace", 7, "f"⟩ ∧
    parseMarketFace (.obj [("type", .str "MarketFace"), ("id", .bool true),
        ("name", .str "f")]) = .ok ⟨"MarketFace", 1, "f"⟩ :=
  ⟨rfl, rfl⟩

/-- C6 amended: a missing required field fails with the missing-field
error naming the field; a value of a shape not coercible to the
declared type (e.g. a list for the int `id`) fails with the type error
naming the field; and a successful decode always takes the required
field from the payload (never null, never defaulted), though pydantic
coercion accepts numeric strings and bools for int fields. -/
theorem claim6_required_field_amended :
    (∀ fields : List (String × JValue), getKey fields "text" = none →
      ∃ errs, parsePlain (.obj fields) = .error errs ∧
        ("text", FErr.kind .missing) ∈ errs) ∧
    (∀ (fields : List (String × JValue)) (p : Plain),
      parsePlain (.obj fields) = .ok p →
        ∃ v, getKey fields "text" = some v ∧ v ≠ .null ∧
          strCoe v = .ok p.text) ∧
    (∀ fields : List (String × JValue), getKey fields "id" = none →
      ∃ errs, parseMarketFace (.obj fields) = .error errs ∧
        ("id", FErr.kind .missing) ∈ errs) ∧
    (∀ (fields : List (String × JValue)) (l : List JValue),
      getKey fields "id" = some (.arr l) →
        ∃ errs, parseMarketFace (.obj fields) = .error errs ∧
          ("id", FErr.kind .intType) ∈ errs) ∧
    (∀ (fields : List (String × JValue)) (m : MarketFace),
      parseMarketFace (.obj fields) = .ok m →
        ∃ v, getKey fields "id" = some v ∧ v ≠ .null ∧ intCoe v = .ok m.id) :=
  ⟨plain_text_missing, plain_ok_text, marketFace_id_missing,
   marketFace_id_arr, marketFace_ok_id⟩

/-- C6 witness: the amended statement at concrete payloads. -/
theorem claim6_required_field_amended_witness :
    (∃ errs, parsePlain (.obj [("type", JValue.str "Plain")]) = .error errs ∧
      ("text", FErr.kind .missing) ∈ errs) ∧
    (∃ errs, parseMarketFace (.obj [("name", JValue.str "f"),
        ("id", JValue.arr [])]) = .error errs ∧
      ("id", FErr.kind .intType) ∈ errs) :=
  ⟨claim6_required_field_amended.1 [("type", .str "Plain")] rfl,
   claim6_required_field_amended.2.2.2.1 [("name", .str "f"), ("id", .arr [])]
     [] rfl⟩

/-- C7: chain decoding is atomic and reports the first failing item.
If some item of the raw sequence fails to validate, the whole chain
decode fails with a single error value whose first entry is the first
failing index paired with that item specific error (pydantic aggregates
the remaining failing indices behind it); if no item fails the decode
succeeds with one element per payload; and a successful decode means no
item failed, so no partial chain is ever produced. -/
theorem claim7_fail_fast :
    ∀ items : List JValue,
      (∀ (i : Nat) (e : ElemErr), firstFail items = some (i, e) →
        ∃ errs, chainParse (.arr items) = .error (.items errs) ∧
          errs.head? = some (i, e)) ∧
      (firstFail items = none →
        ∃ c, chainParse (.arr items) = .ok c ∧ c.root.length = items.length) ∧
      (∀ c : MessageChain, chainParse (.arr items) = .ok c →
        firstFail items = none) := by
  intro items
  have hch : chainParse (.arr items) = (match parseItems 0 items with
      | ([], vals) => Except.ok (MessageChain.mk (vals.map ElementValue.element))
      | (e :: es, _) => Except.error (ChainErr.items (e :: es))) := rfl
  cases hp : parseItems 0 items with
  | mk errs vals =>
    rw [hp] at hch
    have hhead : errs.head? = firstFailAux 0 items := by
      have h2 := parseItems_errs_head 0 items
      rw [hp] at h2
      exact h2
    have hnil : (errs = []) ↔ firstFailAux 0 items = none := by
      have h2 := parseItems_errs_nil 0 items
      rw [hp] at h2
      exact h2
    refine ⟨?_, ?_, ?_⟩
    · intro i e hf
      have hf2 : firstFailAux 0 items = some (i, e) := hf
      cases errs with
      | nil => exact absurd (hhead.trans hf2) (by simp)
      | cons x xs =>
        have hx : x = (i, e) := by
          have h3 := hhead.trans hf2
          simpa using h3
        subst hx
        exact ⟨(i, e) :: xs, hch, rfl⟩
    · intro hf
      have hf2 : firstFailAux 0 items = none := hf
      have he : errs = [] := hnil.mpr hf2
      subst he
      refine ⟨MessageChain.mk (vals.map ElementValue.element), hch, ?_⟩
      obtain ⟨hl, _⟩ := parseItems_ok_spec items 0 vals hp
      simp [MessageChain.root, hl]
    · intro c hc
      cases errs with
      | nil =>
        show firstFailAux 0 items = none
        exact hnil.mp rfl
      | cons x xs => rw [hch] at hc; exact absurd hc (by simp)

/-- C7 witness: a non-dict first item fails the whole chain with its
index and error first. -/
theorem claim7_fail_fast_witness :
    ∃ errs, chainParse (.arr [JValue.int 7]) = .error (.items errs) ∧
      errs.head? = some (0, [("", ErrKind.notADict)]) :=
  (claim7_fail_fast [JValue.int 7]).1 0 [("", ErrKind.notADict)] rfl

/-- C8 counterexample: the spec example chain decodes to two elements
in order, but re-encoding does not reproduce the identical array: the
`text` field of the Plain payload was dropped by the base-element chain
decode. -/
theorem claim8_reencode_cex :
    chainParse (.arr [.obj [("type", .str "Plain"), ("text", .str "hi")],
        .obj [("type", .str "AtAll")]]) =
      .ok (MessageChain.mk [.element ⟨"Plain"⟩, .element ⟨"AtAll"⟩]) ∧
    MessageChain.encode
        (MessageChain.mk [.element ⟨"Plain"⟩, .element ⟨"AtAll"⟩]) ≠
      .arr [.obj [("type", .str "Plain"), ("text", .str "hi")],
        .obj [("type", .str "AtAll")]] :=
  ⟨rfl, by decide⟩

/-- C8 amended: a successful chain decode yields exactly one element
per payload at the same index (order preserved, nothing reordered,
deduplicated or filtered), and encoding emits the elements in chain
order; but each decoded element is the base element of its payload, so
re-encoding reproduces only the `type` keys, not the identical array. -/
theorem claim8_order_amended :
    ∀ (items : List JValue) (c : MessageChain), chainParse (.arr items) = .ok c →
      c.root.length = items.length ∧
      MessageChain.encode c = .arr (c.root.map ElementValue.dict) ∧
      ∀ (i : Nat) (v : JValue), items[i]? = some v →
        ∃ e : Element, parseElement v = .ok e ∧ c.root[i]? = some (.element e) := by
  intro items c h
  obtain ⟨hl, hg⟩ := chainParse_ok_spec items c h
  refine ⟨hl, ?_, hg⟩
  cases c with
  | mk root => simp [MessageChain.encode, MessageChain.root, encodeElems_eq_map]

/-- C8 witness: the amended statement at the spec example payload. -/
theorem claim8_order_amended_witness :
    (MessageChain.mk [ElementValue.element ⟨"Plain"⟩,
      ElementValue.element ⟨"AtAll"⟩]).root.length =
      [JValue.obj [("type", JValue.str "Plain"), ("text", JValue.str "hi")],
        JValue.obj [("type", JValue.str "AtAll")]].length ∧
    ∃ e : Element, parseElement (JValue.obj [("type", JValue.str "AtAll")]) = .ok e ∧
      (MessageChain.mk [ElementValue.element ⟨"Plain"⟩,
        ElementValue.element ⟨"AtAll"⟩]).root[1]? = some (.element e) := by
  obtain ⟨hl, _, hg⟩ := claim8_order_amended
    [JValue.obj [("type", JValue.str "Plain"), ("text", JValue.str "hi")],
      JValue.obj [("type", JValue.str "AtAll")]]
    (MessageChain.mk [ElementValue.element ⟨"Plain"⟩,
      ElementValue.element ⟨"AtAll"⟩]) rfl
  exact ⟨hl, hg 1 _ rfl⟩

/-- C9 counterexample: the discriminator is an ordinary overridable
string field, not an immutable tag: decoding a Plain payload whose
`type` is "NotPlain" succeeds and produces a Plain value whose `type`
differs from the variant tag. -/
theorem claim9_tag_cex :
    parsePlain (.obj [("type", .str "NotPlain"), ("text", .str "hi")]) =
      .ok ⟨"NotPlain", "hi"⟩ ∧
    ("NotPlain" : String) ≠ "Plain" :=
  ⟨rfl, by decide⟩

theorem plain_default_type (fields : List (String × JValue)) (p : Plain)
    (h0 : getKey fields "type" = none) (hp : parsePlain (.obj fields) = .ok p) :
    p.type = "Plain" := by
  cases hX : reqStr (getKey fields "text") with
  | error k => simp [parsePlain, zipE, fldV, defStr, h0, hX] at hp
  | ok x =>
    have hv : parsePlain (.obj fields) = .ok (Plain.mk "Plain" x) := by
      simp [parsePlain, zipE, fldV, defStr, h0, hX]
    have he : Plain.mk "Plain" x = p := Except.ok.inj (hv.symm.trans hp)
    rw [← he]

theorem atAll_default_type (fields : List (String × JValue)) (a : AtAll)
    (h0 : getKey fields "type" = none) (hp : parseAtAll (.obj fields) = .ok a) :
    a.type = "AtAll" := by
  have hv : parseAtAll (.obj fields) = .ok (AtAll.mk "AtAll") := by
    simp [parseAtAll, fldV, defStr, h0]
  have he : AtAll.mk "AtAll" = a := Except.ok.inj (hv.symm.trans hp)
  rw [← he]

theorem marketFace_default_type (fields : List (String × JValue)) (m : MarketFace)
    (h0 : getKey fields "type" = none)
    (hp : parseMarketFace (.obj fields) = .ok m) : m.type = "MarketFace" := by
  cases hR : zipE (fldV "id" (reqInt (getKey fields "id")))
      (fldV "name" (reqStr (getKey fields "name"))) with
  | error e =>
    simp only [parseMarketFace] at hp
    rw [hR] at hp
    simp [zipE, fldV, defStr, h0] at hp
  | ok r =>
    obtain ⟨i, n⟩ := r
    have hv : parseMarketFace (.obj fields) = .ok (MarketFace.mk "MarketFace" i n) := by
      simp only [parseMarketFace]
      rw [hR]
      simp [zipE, fldV, defStr, h0]
    have he : MarketFace.mk "MarketFace" i n = m := Except.ok.inj (hv.symm.trans hp)
    rw [← he]

theorem poke_default_type (fields : List (String × JValue)) (p : Poke)
    (h0 : getKey fields "type" = none) (hp : parsePoke (.obj fields) = .ok p) :
    p.type = "Poke" := by
  cases hX : reqPoke (getKey fields "name") with
  | error k => simp [parsePoke, zipE, fldV, defStr, h0, hX] at hp
  | ok x =>
    have hv : parsePoke (.obj fields) = .ok (Poke.mk "Poke" x) := by
      simp [parsePoke, zipE, fldV, defStr, h0, hX]
    have he : Poke.mk "Poke" x = p := Except.ok.inj (hv.symm.trans hp)
    rw [← he]

theorem json_default_type (fields : List (String × JValue)) (j : Mockery.Json)
    (h0 : getKey fields "type" = none) (hp : parseJson (.obj fields) = .ok j) :
    j.type = "Json" := by
  cases hX : optStr (getKey fields "json") with
  | error k => simp [parseJson, zipE, fldV, defStr, h0, hX] at hp
  | ok x =>
    have hv : parseJson (.obj fields) = .ok (Json.mk "Json" x) := by
      simp [parseJson, zipE, fldV, defStr, h0, hX]
    have he : Json.mk "Json" x = j := Except.ok.inj (hv.symm.trans hp)
    rw [← he]

theorem quote_default_type (fields : List (String × JValue)) (q : Quote)
    (h0 : getKey fields "type" = none) (hp : parseQuote (.obj fields) = .ok q) :
    q.type = "Quote" := by
  cases hR : zipE (fldV "id" (reqInt (getKey fields "id")))
      (zipE (fldV "groupId" (reqInt (getKey fields "groupId")))
        (zipE (fldV "senderId" (reqInt (getKey fields "senderId")))
          (zipE (fldV "targetId" (reqInt (getKey fields "targetId")))
            (fldC "origin" (chainField (getKey fields "origin")))))) with
  | error e =>
    simp only [parseQuote] at hp
    rw [hR] at hp
    simp [zipE, fldV, defStr, h0] at hp
  | ok r =>
    obtain ⟨i, g, sd, tg, o⟩ := r
    have hv : parseQuote (.obj fields) = .ok (Quote.mk "Quote" i g sd tg o) := by
      simp only [parseQuote]
      rw [hR]
      simp [zipE, fldV, defStr, h0]
    have he : Quote.mk "Quote" i g sd tg o = q := Except.ok.inj (hv.symm.trans hp)
    rw [← he]
    rfl

/-- C9 amended: each variant declares its tag only as the default of
the ordinary `type` field: when a payload omits `type`, the decoded
value carries the variant tag; but a payload may override it (see the
counterexample), so the tag is not immutable. -/
theorem claim9_tag_default_amended :
    (∀ (fields : List (String × JValue)) (p : Plain),
      getKey fields "type" = none → parsePlain (.obj fields) = .ok p →
        p.type = "Plain") ∧
    (∀ (fields : List (String × JValue)) (a : AtAll),
      getKey fields "type" = none → parseAtAll (.obj fields) = .ok a →
        a.type = "AtAll") ∧
    (∀ (fields : List (String × JValue)) (m : MarketFace),
      getKey fields "type" = none → parseMarketFace (.obj fields) = .ok m →
        m.type = "MarketFace") ∧
    (∀ (fields : List (String × JValue)) (p : Poke),
      getKey fields "type" = none → parsePoke (.obj fields) = .ok p →
        p.type = "Poke") ∧
    (∀ (fields : List (String × JValue)) (j : Mockery.Json),
      getKey fields "type" = none → parseJson (.obj fields) = .ok j →
        j.type = "Json") ∧
    (∀ (fields : List (String × JValue)) (q : Quote),
      getKey fields "type" = none → parseQuote (.obj fields) = .ok q →
        q.type = "Quote") :=
  ⟨fun fields p h0 hp => plain_default_type fields p h0 hp,
   fun fields a h0 hp => atAll_default_type fields a h0 hp,
   fun fields m h0 hp => marketFace_default_type fields m h0 hp,
   fun fields p h0 hp => poke_default_type fields p h0 hp,
   fun fields j h0 hp => json_default_type fields j h0 hp,
   fun fields q h0 hp => quote_default_type fields q h0 hp⟩

/-- C9 witness: the amended statement at a concrete Plain payload
without a `type` key. -/
theorem claim9_tag_default_amended_witness :
    (Plain.mk "Plain" "hi").type = "Plain" :=
  claim9_tag_default_amended.1 [("text", .str "hi")] (Plain.mk "Plain" "hi")
    rfl rfl

/-- C10: encoding is total over the embedded values: every runtime
element exports to a tagged object and every chain exports to an array
with exactly one entry per element; no error case exists in the export
functions. -/
theorem claim10_encode_total :
    (∀ v : ElementValue, ∃ fields, ElementValue.dict v = .obj fields) ∧
    (∀ c : MessageChain, ∃ vs, MessageChain.encode c = .arr vs ∧
      vs.length = c.root.length) := by
  constructor
  · intro v
    cases v with
    | element e => exact ⟨_, rfl⟩
    | plain p => exact ⟨_, rfl⟩
    | atEl a => exact ⟨_, rfl⟩
    | atAll a => exact ⟨_, rfl⟩
    | face f => exact ⟨_, rfl⟩
    | marketFace m => exact ⟨_, rfl⟩
    | xml x => exact ⟨_, rfl⟩
    | json j => exact ⟨_, rfl⟩
    | app a => exact ⟨_, rfl⟩
    | poke p => exact ⟨_, rfl⟩
    | dice d => exact ⟨_, rfl⟩
    | file f => exact ⟨_, rfl⟩
    | miraiCode m => exact ⟨_, rfl⟩
    | image i => exact ⟨_, rfl⟩
    | quote q => cases q; exact ⟨_, rfl⟩
  · intro c
    cases c with
    | mk root =>
      refine ⟨encodeElems root, rfl, ?_⟩
      rw [encodeElems_eq_map]
      simp [MessageChain.root]

end Mockery
